import Mathlib

/-!
# winload — Traffic Sampling & Visualization Engine: verification

Shallow embedding of the winload network-load monitor core.  The App-level
operations (`App.update`, `App.next_device`, `App.prev_device`) are embedded
from `src/rust/src/main.rs`.  The statistics engine (`stats.rs`), the scale
quantizer and grid renderer (`graph.rs`) are not present in the source tree,
so they are modelled from the specification (each such definition's doc
comment says so).  Rates and timestamps are rationals; byte counters are
naturals.
-/

namespace Winload

/-- Modelled from the spec: a `RawSample` is a timestamped pair of cumulative
byte counters (received, sent) for one device (`stats.rs` is missing from the
source tree).  The timestamp is the monotonic capture instant, in seconds. -/
structure RawSample where
  rx : Nat
  tx : Nat
  t  : ℚ
deriving DecidableEq, Repr

/-- Modelled from the spec: `TrafficStats` is the {current, average, minimum,
maximum, total} summary for one device/direction (`stats.rs` is missing).
`total` is a cumulative byte count, hence a natural number. -/
structure TrafficStats where
  current : ℚ
  average : ℚ
  minimum : ℚ
  maximum : ℚ
  total   : Nat
deriving DecidableEq, Repr

/-- Modelled from the spec: a fresh, all-zero `TrafficStats`.  The lifetime
extremes start at 0, which agrees with "initialized from the first observed
rate" because the first observed rate is always the 0 produced by the
baseline-less first tick. -/
def TrafficStats.new : TrafficStats :=
  { current := 0, average := 0, minimum := 0, maximum := 0, total := 0 }

/-- Modelled from the spec: the small positive epsilon (in seconds) below
which an elapsed time is considered degenerate and the tick is skipped. -/
def epsSeconds : ℚ := 1 / 1000

/-- Modelled from the spec: history-window capacity
`N = max(1, round(averageWindowSeconds * 1000 / intervalMilliseconds))`. -/
def windowCapacity (intervalMs avgSecs : Nat) : Nat :=
  max 1 (round ((avgSecs * 1000 : ℚ) / (intervalMs : ℚ))).toNat

/-- Modelled from the spec: push a rate into the bounded history window,
evicting from the front (oldest entries) once the capacity is exceeded
(ring semantics). -/
def pushHistory (cap : Nat) (h : List ℚ) (r : ℚ) : List ℚ :=
  let h2 := h ++ [r]
  h2.drop (h2.length - cap)

/-- Modelled from the spec: the accepted delta for one direction.  If the
current counter is below the previous one (wraparound or interface reset)
the delta is clamped to 0. -/
def acceptedDelta (cPrev cCur : Nat) : Nat :=
  if cPrev ≤ cCur then cCur - cPrev else 0

/-- Modelled from the spec: the Rate Sampler's rate, in bytes/second:
`rate = delta / elapsedSeconds` with the wraparound clamp applied. -/
def computeRate (cPrev cCur : Nat) (elapsed : ℚ) : ℚ :=
  (acceptedDelta cPrev cCur : ℚ) / elapsed

/-- Modelled from the spec: the Statistics Aggregator step for one direction.
Sets `current` to the rate, recomputes the average over the post-push
window, widens the lifetime extremes, and adds the accepted delta to
`total`.  The matching window update is `pushHistory`. -/
def updateStats (cap : Nat) (s : TrafficStats) (h : List ℚ)
    (rate : ℚ) (delta : Nat) : TrafficStats :=
  let h2 := pushHistory cap h rate
  { current := rate
    average := h2.sum / (h2.length : ℚ)
    minimum := min s.minimum rate
    maximum := max s.maximum rate
    total   := s.total + delta }

/-- Modelled from the spec: the per-device `StatisticsEngine` state: the
fixed window capacity, the previously seen raw sample (absent before the
first tick), and the {TrafficStats, HistoryWindow} pair for each
direction. -/
structure StatisticsEngine where
  capacity : Nat
  prev : Option RawSample
  incoming : TrafficStats
  outgoing : TrafficStats
  incoming_history : List ℚ
  outgoing_history : List ℚ
deriving DecidableEq, Repr

/-- Modelled from the spec: `StatisticsEngine::new(interval, average)`. -/
def StatisticsEngine.new (intervalMs avgSecs : Nat) : StatisticsEngine :=
  { capacity := windowCapacity intervalMs avgSecs
    prev := none
    incoming := TrafficStats.new
    outgoing := TrafficStats.new
    incoming_history := []
    outgoing_history := [] }

/-- Modelled from the spec: `StatisticsEngine::update(snap)`.  On the first
tick (no previous sample) the rate is 0 and the zero delta is still recorded.
If the elapsed time since the previous sample is below the epsilon the update
is skipped entirely.  Otherwise each direction's clamped delta and rate are
folded into the aggregator state, and the snapshot becomes the new
baseline. -/
def StatisticsEngine.update (e : StatisticsEngine) (s : RawSample) :
    StatisticsEngine :=
  match e.prev with
  | none =>
      { e with prev := some s
               incoming := updateStats e.capacity e.incoming e.incoming_history 0 0
               outgoing := updateStats e.capacity e.outgoing e.outgoing_history 0 0
               incoming_history := pushHistory e.capacity e.incoming_history 0
               outgoing_history := pushHistory e.capacity e.outgoing_history 0 }
  | some p =>
      let elapsed := s.t - p.t
      if elapsed < epsSeconds then e
      else
        { e with prev := some s
                 incoming := updateStats e.capacity e.incoming e.incoming_history
                   (computeRate p.rx s.rx elapsed) (acceptedDelta p.rx s.rx)
                 outgoing := updateStats e.capacity e.outgoing e.outgoing_history
                   (computeRate p.tx s.tx elapsed) (acceptedDelta p.tx s.tx)
                 incoming_history := pushHistory e.capacity e.incoming_history
                   (computeRate p.rx s.rx elapsed)
                 outgoing_history := pushHistory e.capacity e.outgoing_history
                   (computeRate p.tx s.tx elapsed) }

/-- Feed a whole sequence of raw samples through the engine, oldest first. -/
def StatisticsEngine.updateAll (e : StatisticsEngine) (l : List RawSample) :
    StatisticsEngine :=
  l.foldl StatisticsEngine.update e

/-- `DeviceInfo` from `collector.rs` (only the fields `main.rs` and `ui.rs`
use): the device name and its address strings. -/
structure DeviceInfo where
  name : String
  addrs : List String
deriving DecidableEq, Repr

/-- `DeviceView` from `src/rust/src/main.rs`: one device's identity together
with its statistics engine. -/
structure DeviceView where
  info : DeviceInfo
  engine : StatisticsEngine
deriving DecidableEq, Repr

/-- `App` from `src/rust/src/main.rs`: the list of device views and the index
of the currently displayed device.  (The OS collector handle is not part of
the model; the per-tick snapshot mapping is passed to `App.update`
explicitly.) -/
structure App where
  views : List DeviceView
  current_idx : Nat
deriving DecidableEq, Repr

/-- `App::update` from `src/rust/src/main.rs` (lines 101–108): for each view,
look its name up in this tick's snapshot mapping; if a snapshot is present,
update the view's engine with it, otherwise leave the view untouched. -/
def App.update (a : App) (snapshots : String → Option RawSample) : App :=
  { a with views := a.views.map (fun v =>
      match snapshots v.info.name with
      | some snap => { v with engine := v.engine.update snap }
      | none => v) }

/-- `App::next_device` from `src/rust/src/main.rs` (lines 110–114). -/
def App.next_device (a : App) : App :=
  if a.views.isEmpty then a
  else { a with current_idx := (a.current_idx + 1) % a.views.length }

/-- `App::prev_device` from `src/rust/src/main.rs` (lines 116–120). -/
def App.prev_device (a : App) : App :=
  if a.views.isEmpty then a
  else { a with current_idx := (a.current_idx + a.views.length - 1) % a.views.length }

/-- Modelled from the spec: `graph::next_power_of_2_scaled` (`graph.rs` is
missing from the source tree; `ui.rs` line 158 calls it on the window peak).
For `peak ≤ 0` it returns the fixed minimal floor scale of 1 byte/second;
otherwise the smallest `2^k` (integer `k ≥ 0`, the floor exponent) that is
`≥ peak`.  Since `2^k` is an integer, that is `2^(clog₂ ⌈peak⌉)`. -/
def next_power_of_2_scaled (peak : ℚ) : ℚ :=
  if peak ≤ 0 then 1 else (2 : ℚ) ^ Nat.clog 2 (Int.toNat ⌈peak⌉)

/-- The closed cell alphabet the Grid Renderer emits: bar body, bar top with
a sub-row remainder, empty plot area above a bar, and no-data column. -/
inductive Cell where
  | filled
  | partTop
  | background
  | blank
deriving DecidableEq, Repr

/-- Modelled from the spec: the renderer's column mapping (`graph.rs` is
missing).  Column `x` of a `width`-column grid shows the history sample at
index `len − width + x` when that index exists, and a no-data column
otherwise: when `len ≥ width` the most recent `width` samples end up
right-aligned, when `len < width` the leftmost `width − len` columns are
blank. -/
def graphColumns (history : List ℚ) (width : Nat) : List (Option ℚ) :=
  (List.range width).map (fun (x : Nat) =>
    let idx : Int := (history.length : Int) - (width : Int) + (x : Int)
    if h : 0 ≤ idx ∧ idx.toNat < history.length then
      some (history.get ⟨idx.toNat, h.2⟩)
    else none)

/-- Modelled from the spec: the exact (un-rounded) bar top of a column with
value `v`, in rows: `clamp(v, 0, scaleMax) / scaleMax × height`. -/
def exactBarTop (v scaleMax : ℚ) (height : Nat) : ℚ :=
  max 0 (min v scaleMax) / scaleMax * (height : ℚ)

/-- Modelled from the spec: the cell of a data column with value `v` at
`row` (counted from the bottom of the plot).  Rows strictly below the bar
top's integer part are filled; the row the exact bar top falls inside is the
partial-top cell; everything above is background. -/
def cellAt (v scaleMax : ℚ) (height row : Nat) : Cell :=
  let e := exactBarTop v scaleMax height
  let full := Int.toNat ⌊e⌋
  if row < full then Cell.filled
  else if row = full ∧ (full : ℚ) < e then Cell.partTop
  else Cell.background

/-- Modelled from the spec: `graph::render_graph(history, width, height,
max_value)` (`graph.rs` is missing; `ui.rs` line 185 calls it).  Produces
`height` rows top-to-bottom, each of `width` cells: blank in no-data
columns, otherwise the cell the column's bar assigns to that row. -/
def render_graph (history : List ℚ) (width height : Nat) (maxValue : ℚ) :
    List (List Cell) :=
  (List.range height).map (fun r =>
    (graphColumns history width).map (fun c =>
      match c with
      | none => Cell.blank
      | some v => cellAt v maxValue height (height - 1 - r)))

/-! Concrete fixtures used by the witness theorems. -/

/-- A fresh engine built with the default CLI configuration
(interval 500 ms, averaging window 300 s). -/
def wEngine : StatisticsEngine := StatisticsEngine.new 500 300

/-- A two-device app fixture, currently on the second device. -/
def wApp : App :=
  { views := [{ info := { name := "eth0", addrs := [] }, engine := wEngine },
              { info := { name := "wlan0", addrs := [] }, engine := wEngine }]
    current_idx := 1 }

/-- A concrete raw sample. -/
def wSample : RawSample := { rx := 1000, tx := 2000, t := 5 }

/-- A snapshot mapping that contains `eth0` but not `wlan0`. -/
def wSnaps : String → Option RawSample :=
  fun n => if n = "eth0" then some wSample else none

/-- The second view of `wApp`. -/
def wViewB : DeviceView :=
  { info := { name := "wlan0", addrs := [] }, engine := wEngine }

/-- A second sample at the same instant as `wSample` (degenerate elapsed). -/
def wSample2 : RawSample := { rx := 2000, tx := 3000, t := 5 }

/-- Spec scenario D, first sample: a counter just below the 32-bit limit. -/
def wWrapS1 : RawSample := { rx := 4294967290, tx := 100, t := 0 }

/-- Spec scenario D, second sample: the counter has wrapped around. -/
def wWrapS2 : RawSample := { rx := 50, tx := 100, t := 1 / 2 }

/-- The default engine after seeing the pre-wraparound sample. -/
def wEngineWrap : StatisticsEngine := wEngine.update wWrapS1

/-- All rates held by an engine (both currents and every history entry)
are non-negative. -/
def RatesNonneg (e : StatisticsEngine) : Prop :=
  0 ≤ e.incoming.current ∧ 0 ≤ e.outgoing.current ∧
  (∀ r ∈ e.incoming_history, 0 ≤ r) ∧ (∀ r ∈ e.outgoing_history, 0 ≤ r)

section Theorems

/-- C2: when the views list is non-empty, `next_device` maps the index to
`(i + 1) % len` and `prev_device` to `(i + len − 1) % len`, both results
below `len` (so the invariant `current_idx < views.len()` is preserved and
index 0 wraps to `len − 1` without underflow); when the views list is empty
both operations leave the app, in particular `current_idx`, unchanged. -/
theorem App.next_prev_device_spec (a : App) :
    (a.views ≠ [] →
      a.next_device.current_idx = (a.current_idx + 1) % a.views.length ∧
      a.next_device.current_idx < a.views.length ∧
      a.prev_device.current_idx = (a.current_idx + a.views.length - 1) % a.views.length ∧
      a.prev_device.current_idx < a.views.length) ∧
    (a.views = [] → a.next_device = a ∧ a.prev_device = a) := by
  constructor
  · intro h
    have hne : a.views.isEmpty = false := by
      cases hv : a.views with
      | nil => exact absurd hv h
      | cons x xs => rfl
    have hlen : 0 < a.views.length := by
      cases hv : a.views with
      | nil => exact absurd hv h
      | cons x xs => simp [hv]
    refine ⟨by simp [App.next_device, hne], ?_,
            by simp [App.prev_device, hne], ?_⟩
    · simp only [App.next_device, hne, Bool.false_eq_true, if_false]
      exact Nat.mod_lt _ hlen
    · simp only [App.prev_device, hne, Bool.false_eq_true, if_false]
      exact Nat.mod_lt _ hlen
  · intro h
    simp [App.next_device, App.prev_device, h]

/-- Witness for C2 at a concrete two-device app on index 1: both
`next_device` and `prev_device` wrap to index 0. -/
theorem App.next_prev_device_spec_witness :
    wApp.views ≠ [] ∧
    wApp.next_device.current_idx = 0 ∧ wApp.prev_device.current_idx = 0 := by
  have h : wApp.views ≠ [] := by simp [wApp]
  have hs := (App.next_prev_device_spec wApp).1 h
  exact ⟨h, by rw [hs.1]; rfl, by rw [hs.2.2.1]; rfl⟩

/-- C1: `App::update` leaves the length of the views list unchanged; a view
whose name is absent from this tick's snapshot mapping is exactly the same
afterwards (its whole `StatisticsEngine`, hence its `TrafficStats` and both
histories, untouched), while a view whose name is present is replaced by the
same view with its engine updated via `engine.update` on that snapshot. -/
theorem App.update_frame (a : App) (snaps : String → Option RawSample)
    (i : Nat) (v : DeviceView) (hv : a.views[i]? = some v) :
    ((a.update snaps).views.length = a.views.length) ∧
    (snaps v.info.name = none → (a.update snaps).views[i]? = some v) ∧
    (∀ s, snaps v.info.name = some s →
      (a.update snaps).views[i]? =
        some { v with engine := v.engine.update s }) := by
  refine ⟨by simp [App.update], ?_, ?_⟩
  · intro h
    simp [App.update, hv, h]
  · intro s h
    simp [App.update, hv, h]

/-- Witness for C1: in `wApp` under a snapshot mapping that lacks `wlan0`,
the `wlan0` view (index 1) is exactly unchanged by `App.update`. -/
theorem App.update_frame_witness :
    (wApp.update wSnaps).views[1]? = some wViewB :=
  (App.update_frame wApp wSnaps 1 wViewB (by rfl)).2.1 (by rfl)

/-- C10: when there is a previous sample and the elapsed time to the new
sample is below the positive epsilon, the engine update is skipped entirely:
the whole engine state — in particular the rate (`current`), the history
windows, the lifetime extremes and `total` for both directions — is exactly
as before the tick. -/
theorem StatisticsEngine.update_skips_degenerate_elapsed
    (e : StatisticsEngine) (p s : RawSample)
    (hp : e.prev = some p) (hlt : s.t - p.t < epsSeconds) :
    e.update s = e ∧
    (e.update s).incoming = e.incoming ∧
    (e.update s).outgoing = e.outgoing ∧
    (e.update s).incoming_history = e.incoming_history ∧
    (e.update s).outgoing_history = e.outgoing_history := by
  have h : e.update s = e := by
    unfold StatisticsEngine.update
    rw [hp]
    simp [hlt]
  exact ⟨h, by rw [h], by rw [h], by rw [h], by rw [h]⟩

/-- Witness for C10: a second sample at the very same instant leaves the
engine untouched. -/
theorem update_skips_degenerate_elapsed_witness :
    (wEngine.update wSample).update wSample2 = wEngine.update wSample :=
  (StatisticsEngine.update_skips_degenerate_elapsed
    (wEngine.update wSample) wSample wSample2 (by rfl)
    (by norm_num [wSample2, wSample, epsSeconds])).1

/-- Helper: an element of the post-push window was in the old window or is
the pushed rate. -/
theorem mem_pushHistory {cap : Nat} {h : List ℚ} {r x : ℚ}
    (hx : x ∈ pushHistory cap h r) : x ∈ h ∨ x = r := by
  unfold pushHistory at hx
  have := List.mem_of_mem_drop hx
  rcases List.mem_append.mp this with h1 | h2
  · exact Or.inl h1
  · exact Or.inr (List.mem_singleton.mp h2)

/-- Helper: a single engine update never decreases either direction's
`total`. -/
theorem update_total_mono (e : StatisticsEngine) (s : RawSample) :
    e.incoming.total ≤ (e.update s).incoming.total ∧
    e.outgoing.total ≤ (e.update s).outgoing.total := by
  unfold StatisticsEngine.update
  cases hp : e.prev with
  | none => exact ⟨Nat.le_add_right _ _, Nat.le_add_right _ _⟩
  | some p =>
    by_cases hlt : s.t - p.t < epsSeconds
    · simp [hlt]
    · simp only [hlt, if_false]
      exact ⟨Nat.le_add_right _ _, Nat.le_add_right _ _⟩

/-- Helper: feeding any sample sequence never decreases either direction's
`total`. -/
theorem updateAll_total_mono (e : StatisticsEngine) (l : List RawSample) :
    e.incoming.total ≤ (e.updateAll l).incoming.total ∧
    e.outgoing.total ≤ (e.updateAll l).outgoing.total := by
  induction l generalizing e with
  | nil => exact ⟨le_rfl, le_rfl⟩
  | cons s l ih =>
    have h1 := update_total_mono e s
    have h2 := ih (e.update s)
    exact ⟨h1.1.trans h2.1, h1.2.trans h2.2⟩

/-- C3: on a tick whose counter is below the previous one (wraparound or
reset) the clamp makes the rate for that tick exactly 0 and leaves `total`
unchanged, for whichever direction wrapped; and over every update sequence
`total` is monotonically non-decreasing in both directions. -/
theorem wraparound_clamp_spec :
    (∀ (e : StatisticsEngine) (p s : RawSample), e.prev = some p →
      epsSeconds ≤ s.t - p.t →
      (s.rx < p.rx →
        (e.update s).incoming.current = 0 ∧
        (e.update s).incoming.total = e.incoming.total) ∧
      (s.tx < p.tx →
        (e.update s).outgoing.current = 0 ∧
        (e.update s).outgoing.total = e.outgoing.total)) ∧
    (∀ (e : StatisticsEngine) (l : List RawSample),
      e.incoming.total ≤ (e.updateAll l).incoming.total ∧
      e.outgoing.total ≤ (e.updateAll l).outgoing.total) := by
  constructor
  · intro e p s hp he
    have hnlt : ¬ (s.t - p.t < epsSeconds) := not_lt.mpr he
    constructor
    · intro hrx
      have hδ : acceptedDelta p.rx s.rx = 0 := by
        unfold acceptedDelta
        rw [if_neg (not_le.mpr hrx)]
      have hrate : computeRate p.rx s.rx (s.t - p.t) = 0 := by
        unfold computeRate
        rw [hδ]
        simp
      unfold StatisticsEngine.update
      rw [hp]
      simp only [hnlt, if_false]
      exact ⟨by simp [updateStats, hrate], by simp [updateStats, hδ]⟩
    · intro htx
      have hδ : acceptedDelta p.tx s.tx = 0 := by
        unfold acceptedDelta
        rw [if_neg (not_le.mpr htx)]
      have hrate : computeRate p.tx s.tx (s.t - p.t) = 0 := by
        unfold computeRate
        rw [hδ]
        simp
      unfold StatisticsEngine.update
      rw [hp]
      simp only [hnlt, if_false]
      exact ⟨by simp [updateStats, hrate], by simp [updateStats, hδ]⟩
  · exact updateAll_total_mono

/-- Witness for C3 at spec scenario D: previous counter 4294967290, current
counter 50 half a second later give rate 0 and an unchanged total. -/
theorem wraparound_clamp_spec_witness :
    (wEngineWrap.update wWrapS2).incoming.current = 0 ∧
    (wEngineWrap.update wWrapS2).incoming.total = wEngineWrap.incoming.total :=
  (wraparound_clamp_spec.1 wEngineWrap wWrapS1 wWrapS2
    (by rfl) (by norm_num [wWrapS1, wWrapS2, epsSeconds])).1 (by decide)

/-- Helper: the Rate Sampler's rate is non-negative whenever the elapsed
time passed the epsilon guard. -/
theorem computeRate_nonneg (cPrev cCur : Nat) (elapsed : ℚ)
    (he : epsSeconds ≤ elapsed) : 0 ≤ computeRate cPrev cCur elapsed := by
  have h0 : (0 : ℚ) ≤ elapsed := le_trans (by norm_num [epsSeconds]) he
  exact div_nonneg (Nat.cast_nonneg _) h0

/-- Helper: a fresh engine holds only non-negative rates. -/
theorem ratesNonneg_new (i a : Nat) : RatesNonneg (StatisticsEngine.new i a) := by
  refine ⟨le_rfl, le_rfl, ?_, ?_⟩ <;> intro r hr <;> simp [StatisticsEngine.new] at hr

/-- Helper: an engine update preserves non-negativity of all held rates. -/
theorem update_preserves_ratesNonneg (e : StatisticsEngine) (s : RawSample)
    (he : RatesNonneg e) : RatesNonneg (e.update s) := by
  obtain ⟨hc1, hc2, hh1, hh2⟩ := he
  unfold StatisticsEngine.update
  cases hp : e.prev with
  | none =>
    refine ⟨le_rfl, le_rfl, ?_, ?_⟩ <;> intro r hr <;>
      rcases mem_pushHistory hr with h | h
    · exact hh1 r h
    · exact h.ge
    · exact hh2 r h
    · exact h.ge
  | some p =>
    by_cases hlt : s.t - p.t < epsSeconds
    · simp only [hlt, if_true]
      exact ⟨hc1, hc2, hh1, hh2⟩
    · simp only [hlt, if_false]
      have hr1 := computeRate_nonneg p.rx s.rx (s.t - p.t) (not_lt.mp hlt)
      have hr2 := computeRate_nonneg p.tx s.tx (s.t - p.t) (not_lt.mp hlt)
      refine ⟨hr1, hr2, ?_, ?_⟩ <;> intro r hr <;>
        rcases mem_pushHistory hr with h | h
      · exact hh1 r h
      · exact h ▸ hr1
      · exact hh2 r h
      · exact h ▸ hr2

/-- Helper: `RatesNonneg` is preserved by any update sequence. -/
theorem updateAll_preserves_ratesNonneg (e : StatisticsEngine)
    (l : List RawSample) (he : RatesNonneg e) : RatesNonneg (e.updateAll l) := by
  induction l generalizing e with
  | nil => exact he
  | cons s l ih => exact ih (e.update s) (update_preserves_ratesNonneg e s he)

/-- C4: every rate the Rate Sampler computes (past the elapsed-time guard)
is ≥ 0, whatever the counters did; consequently, after any sample sequence
from a fresh engine, both current rates and every rate in either history
window are ≥ 0. -/
theorem rates_nonneg_spec :
    (∀ (cPrev cCur : Nat) (elapsed : ℚ), epsSeconds ≤ elapsed →
      0 ≤ computeRate cPrev cCur elapsed) ∧
    (∀ (i a : Nat) (l : List RawSample),
      RatesNonneg ((StatisticsEngine.new i a).updateAll l)) :=
  ⟨computeRate_nonneg, fun i a l =>
    updateAll_preserves_ratesNonneg _ l (ratesNonneg_new i a)⟩

/-- Witness for C4: a decreasing counter over half a second still yields a
non-negative rate. -/
theorem rates_nonneg_spec_witness :
    epsSeconds ≤ (1 / 2 : ℚ) ∧ 0 ≤ computeRate 100 50 (1 / 2) :=
  ⟨by norm_num [epsSeconds], rates_nonneg_spec.1 100 50 (1 / 2)
    (by norm_num [epsSeconds])⟩

/-- Helper: the engine fields after an effective (non-skipped, non-first)
update. -/
theorem update_effective (e : StatisticsEngine) (p s : RawSample)
    (hp : e.prev = some p) (he : epsSeconds ≤ s.t - p.t) :
    (e.update s).prev = some s ∧
    (e.update s).capacity = e.capacity ∧
    (e.update s).incoming = updateStats e.capacity e.incoming
      e.incoming_history (computeRate p.rx s.rx (s.t - p.t))
      (acceptedDelta p.rx s.rx) ∧
    (e.update s).outgoing = updateStats e.capacity e.outgoing
      e.outgoing_history (computeRate p.tx s.tx (s.t - p.t))
      (acceptedDelta p.tx s.tx) ∧
    (e.update s).incoming_history = pushHistory e.capacity e.incoming_history
      (computeRate p.rx s.rx (s.t - p.t)) ∧
    (e.update s).outgoing_history = pushHistory e.capacity e.outgoing_history
      (computeRate p.tx s.tx (s.t - p.t)) := by
  unfold StatisticsEngine.update
  rw [hp]
  simp only [not_lt.mpr he, if_false]
  exact ⟨trivial, trivial, trivial, trivial, trivial, trivial⟩

/-- Helper: the engine fields after a first (baseline-less) update. -/
theorem update_first (e : StatisticsEngine) (s : RawSample)
    (hp : e.prev = none) :
    (e.update s).prev = some s ∧
    (e.update s).capacity = e.capacity ∧
    (e.update s).incoming = updateStats e.capacity e.incoming
      e.incoming_history 0 0 ∧
    (e.update s).outgoing = updateStats e.capacity e.outgoing
      e.outgoing_history 0 0 ∧
    (e.update s).incoming_history = pushHistory e.capacity e.incoming_history 0 ∧
    (e.update s).outgoing_history = pushHistory e.capacity e.outgoing_history 0 := by
  unfold StatisticsEngine.update
  rw [hp]
  exact ⟨rfl, rfl, rfl, rfl, rfl, rfl⟩

/-- Helper: an update never changes the window capacity. -/
theorem update_capacity (e : StatisticsEngine) (s : RawSample) :
    (e.update s).capacity = e.capacity := by
  unfold StatisticsEngine.update
  cases hp : e.prev with
  | none => rfl
  | some p =>
    by_cases hlt : s.t - p.t < epsSeconds
    · simp [hlt]
    · simp [hlt]

/-- Helper: the length of the post-push window. -/
theorem pushHistory_length (cap : Nat) (h : List ℚ) (r : ℚ) :
    (pushHistory cap h r).length = min (h.length + 1) cap := by
  unfold pushHistory
  simp only [List.length_drop, List.length_append, List.length_cons,
    List.length_nil]
  omega

/-- Helper: an update keeps both window lengths within the capacity. -/
theorem update_history_le (e : StatisticsEngine) (s : RawSample)
    (h1 : e.incoming_history.length ≤ e.capacity)
    (h2 : e.outgoing_history.length ≤ e.capacity) :
    (e.update s).incoming_history.length ≤ (e.update s).capacity ∧
    (e.update s).outgoing_history.length ≤ (e.update s).capacity := by
  unfold StatisticsEngine.update
  cases hp : e.prev with
  | none =>
    simp only [pushHistory_length]
    omega
  | some p =>
    by_cases hlt : s.t - p.t < epsSeconds
    · simp only [hlt, if_true]
      exact ⟨h1, h2⟩
    · simp only [hlt, if_false, pushHistory_length]
      omega

/-- Helper: window lengths stay within the capacity along any update
sequence. -/
theorem updateAll_history_le (e : StatisticsEngine) (l : List RawSample)
    (h1 : e.incoming_history.length ≤ e.capacity)
    (h2 : e.outgoing_history.length ≤ e.capacity) :
    (e.updateAll l).incoming_history.length ≤ (e.updateAll l).capacity ∧
    (e.updateAll l).outgoing_history.length ≤ (e.updateAll l).capacity := by
  induction l generalizing e with
  | nil => exact ⟨h1, h2⟩
  | cons s l ih =>
    have h := update_history_le e s h1 h2
    exact ih (e.update s) h.1 h.2

/-- Helper: the capacity is unchanged along any update sequence. -/
theorem updateAll_capacity (e : StatisticsEngine) (l : List RawSample) :
    (e.updateAll l).capacity = e.capacity := by
  induction l generalizing e with
  | nil => rfl
  | cons s l ih => rw [StatisticsEngine.updateAll, List.foldl_cons,
      ← StatisticsEngine.updateAll, ih, update_capacity]

/-- Helper: exact window count along a chain of well-spaced ticks, after a
baseline is in place. -/
theorem chain_history_length (l : List RawSample) :
    ∀ (e : StatisticsEngine) (p : RawSample), e.prev = some p →
    e.incoming_history.length ≤ e.capacity →
    List.Chain (fun x y => epsSeconds ≤ y.t - x.t) p l →
    (e.updateAll l).incoming_history.length =
      min (e.incoming_history.length + l.length) e.capacity := by
  induction l with
  | nil =>
    intro e p _ hle _
    simp only [StatisticsEngine.updateAll, List.foldl_nil, List.length_nil]
    omega
  | cons s l ih =>
    intro e p hp hle hch
    rcases List.chain_cons.mp hch with ⟨h1, h2⟩
    have hu := update_effective e p s hp h1
    have hstep : (e.updateAll (s :: l)) = ((e.update s).updateAll l) := rfl
    rw [hstep, ih (e.update s) s hu.1
      (by rw [hu.2.2.2.2.1, pushHistory_length, hu.2.1]; omega) h2,
      hu.2.2.2.2.1, pushHistory_length, hu.2.1]
    simp only [List.length_cons]
    omega

/-- C5: the window capacity is
`N = max(1, round(averageWindowSeconds·1000 / intervalMilliseconds))` and is
fixed across updates; after any update sequence both windows hold at most
`N` entries; along ticks spaced at least epsilon apart the window holds
exactly `min(ticks elapsed, N)` entries; and once at capacity an insertion
evicts exactly the oldest entry. -/
theorem history_window_spec :
    (∀ (i a : Nat), (StatisticsEngine.new i a).capacity =
      max 1 (round ((a * 1000 : ℚ) / (i : ℚ))).toNat) ∧
    (∀ (e : StatisticsEngine) (l : List RawSample),
      (e.updateAll l).capacity = e.capacity) ∧
    (∀ (i a : Nat) (l : List RawSample),
      ((StatisticsEngine.new i a).updateAll l).incoming_history.length ≤
        windowCapacity i a ∧
      ((StatisticsEngine.new i a).updateAll l).outgoing_history.length ≤
        windowCapacity i a) ∧
    (∀ (i a : Nat) (l : List RawSample),
      l.Chain' (fun x y => epsSeconds ≤ y.t - x.t) →
      ((StatisticsEngine.new i a).updateAll l).incoming_history.length =
        min l.length (windowCapacity i a)) ∧
    (∀ (cap : Nat) (h : List ℚ) (r : ℚ), 0 < cap → h.length = cap →
      pushHistory cap h r = h.drop 1 ++ [r]) := by
  refine ⟨fun i a => rfl, updateAll_capacity, ?_, ?_, ?_⟩
  · intro i a l
    have h := updateAll_history_le (StatisticsEngine.new i a) l
      (by simp [StatisticsEngine.new]) (by simp [StatisticsEngine.new])
    rwa [updateAll_capacity] at h
  · intro i a l hch
    have hcap : 1 ≤ windowCapacity i a := le_max_left _ _
    cases l with
    | nil => simp [StatisticsEngine.updateAll, StatisticsEngine.new]
    | cons s l =>
      have hu := update_first (StatisticsEngine.new i a) s rfl
      have hstep : ((StatisticsEngine.new i a).updateAll (s :: l)) =
          (((StatisticsEngine.new i a).update s).updateAll l) := rfl
      have hlen1 : ((StatisticsEngine.new i a).update s).incoming_history.length
          = 1 := by
        rw [hu.2.2.2.2.1]
        simp only [StatisticsEngine.new, pushHistory_length, List.length_nil]
        omega
      rw [hstep, chain_history_length l ((StatisticsEngine.new i a).update s) s
        hu.1 (by rw [hlen1, hu.2.1]; exact hcap) hch, hlen1, hu.2.1]
      simp only [StatisticsEngine.new, List.length_cons]
      omega
  · intro cap h r hcap hlen
    unfold pushHistory
    simp only [List.length_append, List.length_cons, List.length_nil]
    rw [show h.length + (0 + 1) - cap = 1 by omega]
    exact List.drop_append_of_le_length (by omega)

/-- Witness for C5: two well-spaced ticks into a 20-slot window (interval
500 ms, 10 s average) give exactly 2 entries, and a full 3-slot window
evicts its oldest entry on push. -/
theorem history_window_spec_witness :
    ((StatisticsEngine.new 500 10).updateAll
        [{ rx := 0, tx := 0, t := 0 }, { rx := 10, tx := 10, t := 1 }]
      ).incoming_history.length =
      min 2 (windowCapacity 500 10) ∧
    pushHistory 3 [1, 2, 3] 9 = [2, 3, 9] := by
  constructor
  · exact history_window_spec.2.2.2.1 500 10 _ (by
      constructor
      · norm_num [epsSeconds]
      · constructor)
  · rw [history_window_spec.2.2.2.2 3 [1, 2, 3] 9 (by norm_num) (by simp)]
    rfl

/-- Helper: after any single update, each direction's `current` lies between
its `minimum` and `maximum`. -/
theorem update_min_le_current_le_max (e : StatisticsEngine) (s : RawSample) :
    ((e.update s).incoming.minimum ≤ (e.update s).incoming.current ∧
      (e.update s).incoming.current ≤ (e.update s).incoming.maximum ∧
      (e.update s).outgoing.minimum ≤ (e.update s).outgoing.current ∧
      (e.update s).outgoing.current ≤ (e.update s).outgoing.maximum) ∨
    e.update s = e := by
  unfold StatisticsEngine.update
  cases hp : e.prev with
  | none =>
    exact Or.inl ⟨min_le_right _ _, le_max_right _ _,
      min_le_right _ _, le_max_right _ _⟩
  | some p =>
    by_cases hlt : s.t - p.t < epsSeconds
    · simp only [hlt, if_true]
      exact Or.inr trivial
    · simp only [hlt, if_false]
      exact Or.inl ⟨min_le_right _ _, le_max_right _ _,
        min_le_right _ _, le_max_right _ _⟩

/-- Helper: a single update never raises a `minimum` and never lowers a
`maximum` (the extremes are lifetime-monotone). -/
theorem update_extremes_widen (e : StatisticsEngine) (s : RawSample) :
    (e.update s).incoming.minimum ≤ e.incoming.minimum ∧
    e.incoming.maximum ≤ (e.update s).incoming.maximum ∧
    (e.update s).outgoing.minimum ≤ e.outgoing.minimum ∧
    e.outgoing.maximum ≤ (e.update s).outgoing.maximum := by
  unfold StatisticsEngine.update
  cases hp : e.prev with
  | none =>
    exact ⟨min_le_left _ _, le_max_left _ _, min_le_left _ _, le_max_left _ _⟩
  | some p =>
    by_cases hlt : s.t - p.t < epsSeconds
    · simp [hlt]
    · simp only [hlt, if_false]
      exact ⟨min_le_left _ _, le_max_left _ _, min_le_left _ _, le_max_left _ _⟩

/-- Helper: extremes are lifetime-monotone along any update sequence. -/
theorem updateAll_extremes_widen (e : StatisticsEngine) (l : List RawSample) :
    (e.updateAll l).incoming.minimum ≤ e.incoming.minimum ∧
    e.incoming.maximum ≤ (e.updateAll l).incoming.maximum ∧
    (e.updateAll l).outgoing.minimum ≤ e.outgoing.minimum ∧
    e.outgoing.maximum ≤ (e.updateAll l).outgoing.maximum := by
  induction l generalizing e with
  | nil => exact ⟨le_rfl, le_rfl, le_rfl, le_rfl⟩
  | cons s l ih =>
    have h1 := update_extremes_widen e s
    have h2 := ih (e.update s)
    exact ⟨h2.1.trans h1.1, h1.2.1.trans h2.2.1,
      h2.2.2.1.trans h1.2.2.1, h1.2.2.2.trans h2.2.2.2⟩

/-- Helper: the `minimum ≤ current ≤ maximum` sandwich is preserved by any
update sequence. -/
theorem updateAll_min_le_current_le_max (e : StatisticsEngine)
    (l : List RawSample)
    (he : e.incoming.minimum ≤ e.incoming.current ∧
      e.incoming.current ≤ e.incoming.maximum ∧
      e.outgoing.minimum ≤ e.outgoing.current ∧
      e.outgoing.current ≤ e.outgoing.maximum) :
    (e.updateAll l).incoming.minimum ≤ (e.updateAll l).incoming.current ∧
    (e.updateAll l).incoming.current ≤ (e.updateAll l).incoming.maximum ∧
    (e.updateAll l).outgoing.minimum ≤ (e.updateAll l).outgoing.current ∧
    (e.updateAll l).outgoing.current ≤ (e.updateAll l).outgoing.maximum := by
  induction l generalizing e with
  | nil => exact he
  | cons s l ih =>
    refine ih (e.update s) ?_
    rcases update_min_le_current_le_max e s with h | h
    · exact h
    · rw [h]; exact he

/-- C6: after any update sequence on a fresh engine,
`minimum ≤ current ≤ maximum` holds for both directions; a single update
never raises a `minimum` nor lowers a `maximum` (they are lifetime extremes,
not windowed), and after the very first (baseline-less) tick both extremes
equal the first observed rate (the recorded 0). -/
theorem min_max_spec :
    (∀ (i a : Nat) (l : List RawSample),
      ((StatisticsEngine.new i a).updateAll l).incoming.minimum ≤
        ((StatisticsEngine.new i a).updateAll l).incoming.current ∧
      ((StatisticsEngine.new i a).updateAll l).incoming.current ≤
        ((StatisticsEngine.new i a).updateAll l).incoming.maximum ∧
      ((StatisticsEngine.new i a).updateAll l).outgoing.minimum ≤
        ((StatisticsEngine.new i a).updateAll l).outgoing.current ∧
      ((StatisticsEngine.new i a).updateAll l).outgoing.current ≤
        ((StatisticsEngine.new i a).updateAll l).outgoing.maximum) ∧
    (∀ (e : StatisticsEngine) (l : List RawSample),
      (e.updateAll l).incoming.minimum ≤ e.incoming.minimum ∧
      e.incoming.maximum ≤ (e.updateAll l).incoming.maximum ∧
      (e.updateAll l).outgoing.minimum ≤ e.outgoing.minimum ∧
      e.outgoing.maximum ≤ (e.updateAll l).outgoing.maximum) ∧
    (∀ (i a : Nat) (s : RawSample),
      ((StatisticsEngine.new i a).update s).incoming.minimum =
        ((StatisticsEngine.new i a).update s).incoming.current ∧
      ((StatisticsEngine.new i a).update s).incoming.maximum =
        ((StatisticsEngine.new i a).update s).incoming.current) := by
  refine ⟨?_, updateAll_extremes_widen, ?_⟩
  · intro i a l
    exact updateAll_min_le_current_le_max (StatisticsEngine.new i a) l
      (by simp [StatisticsEngine.new, TrafficStats.new])
  · intro i a s
    have h := update_first (StatisticsEngine.new i a) s rfl
    rw [h.2.2.1]
    simp [updateStats, StatisticsEngine.new, TrafficStats.new]

/-- Helper: the scale is always at least the floor scale 1. -/
theorem one_le_next_power_of_2_scaled (p : ℚ) :
    1 ≤ next_power_of_2_scaled p := by
  unfold next_power_of_2_scaled
  by_cases hp : p ≤ 0
  · rw [if_pos hp]
  · rw [if_neg hp]
    calc (1 : ℚ) = 2 ^ (0 : Nat) := by norm_num
    _ ≤ 2 ^ Nat.clog 2 (Int.toNat ⌈p⌉) :=
        pow_le_pow_right₀ (by norm_num) (Nat.zero_le _)

/-- Helper: for positive peaks the scale is the power of two at the clog of
the ceiling. -/
theorem next_power_of_2_scaled_of_pos (p : ℚ) (hp : 0 < p) :
    next_power_of_2_scaled p = 2 ^ Nat.clog 2 (Int.toNat ⌈p⌉) := by
  unfold next_power_of_2_scaled
  rw [if_neg (not_le.mpr hp)]

/-- C7: `next_power_of_2_scaled` returns the fixed floor scale 1 for every
peak ≤ 0; for every peak > 0 it returns a value of the form `2^k` (`k : ℕ`,
i.e. at least the floor exponent 0) that is ≥ the peak and is the smallest
such power of two; and it is monotonically non-decreasing, so its output
always lies on the power-of-two ladder that includes the floor `1 = 2^0`. -/
theorem selectScale_spec :
    (∀ p : ℚ, p ≤ 0 → next_power_of_2_scaled p = 1) ∧
    (∀ p : ℚ, 0 < p →
      (∃ k : Nat, next_power_of_2_scaled p = 2 ^ k) ∧
      p ≤ next_power_of_2_scaled p ∧
      (∀ k : Nat, p ≤ 2 ^ k → next_power_of_2_scaled p ≤ 2 ^ k)) ∧
    (∀ p q : ℚ, p ≤ q →
      next_power_of_2_scaled p ≤ next_power_of_2_scaled q) := by
  refine ⟨?_, ?_, ?_⟩
  · intro p hp
    unfold next_power_of_2_scaled
    rw [if_pos hp]
  · intro p hp
    have hze : (0 : ℤ) < ⌈p⌉ := Int.ceil_pos.mpr hp
    have hcast : ((Int.toNat ⌈p⌉ : ℤ)) = ⌈p⌉ := Int.toNat_of_nonneg hze.le
    refine ⟨⟨_, next_power_of_2_scaled_of_pos p hp⟩, ?_, ?_⟩
    · rw [next_power_of_2_scaled_of_pos p hp]
      calc p ≤ (⌈p⌉ : ℚ) := Int.le_ceil p
      _ = ((Int.toNat ⌈p⌉ : ℕ) : ℚ) := by exact_mod_cast hcast.symm
      _ ≤ (((2 ^ Nat.clog 2 (Int.toNat ⌈p⌉) : ℕ)) : ℚ) := by
          exact_mod_cast Nat.le_pow_clog (by norm_num) _
      _ = 2 ^ Nat.clog 2 (Int.toNat ⌈p⌉) := by push_cast; ring
    · intro k hk
      rw [next_power_of_2_scaled_of_pos p hp]
      have h1 : ⌈p⌉ ≤ ((2 ^ k : ℕ) : ℤ) := Int.ceil_le.mpr (by push_cast at hk ⊢; exact hk)
      have h2 : Int.toNat ⌈p⌉ ≤ 2 ^ k := by omega
      have h3 : Nat.clog 2 (Int.toNat ⌈p⌉) ≤ k :=
        (Nat.le_pow_iff_clog_le (by norm_num)).mp h2
      exact pow_le_pow_right₀ (by norm_num) h3
  · intro p q hpq
    by_cases hp : p ≤ 0
    · rw [show next_power_of_2_scaled p = 1 by
        unfold next_power_of_2_scaled; rw [if_pos hp]]
      exact one_le_next_power_of_2_scaled q
    · have hp' : 0 < p := not_le.mp hp
      have hq' : 0 < q := lt_of_lt_of_le hp' hpq
      rw [next_power_of_2_scaled_of_pos p hp',
          next_power_of_2_scaled_of_pos q hq']
      exact pow_le_pow_right₀ (by norm_num)
        (Nat.clog_mono_right 2 (Int.toNat_le_toNat (Int.ceil_mono hpq)))

/-- Witness for C7 at spec scenario B: peak 1500 gives a scale between 1500
and 2^11 = 2048, the map is monotone from peak 1000 to peak 1500, and a
zero peak gives the floor scale. -/
theorem selectScale_spec_witness :
    (0 : ℚ) < 1500 ∧
    (1500 : ℚ) ≤ next_power_of_2_scaled 1500 ∧
    next_power_of_2_scaled 1500 ≤ 2 ^ 11 ∧
    next_power_of_2_scaled 1000 ≤ next_power_of_2_scaled 1500 ∧
    next_power_of_2_scaled 0 = 1 := by
  refine ⟨by norm_num, ?_, ?_, ?_, ?_⟩
  · exact (selectScale_spec.2.1 1500 (by norm_num)).2.1
  · exact (selectScale_spec.2.1 1500 (by norm_num)).2.2 11 (by norm_num)
  · exact selectScale_spec.2.2 1000 1500 (by norm_num)
  · exact selectScale_spec.1 0 le_rfl

/-- Helper: the column list always has exactly `width` entries. -/
theorem graphColumns_length (history : List ℚ) (width : Nat) :
    (graphColumns history width).length = width := by
  simp [graphColumns]

/-- C8: for every history, width, height and positive scale, `render_graph`
returns exactly `height` rows of exactly `width` cells each — whatever the
relationship of the history length to the width — and the degenerate
dimensions `height = 0` and `width = 0` yield an empty grid (no rows /
zero-width rows) rather than failing. -/
theorem render_graph_shape (history : List ℚ) (width height : Nat)
    (scaleMax : ℚ) (_hpos : 0 < scaleMax) :
    (render_graph history width height scaleMax).length = height ∧
    (∀ row ∈ render_graph history width height scaleMax,
      row.length = width) ∧
    render_graph history width 0 scaleMax = [] ∧
    (∀ row ∈ render_graph history 0 height scaleMax, row = []) := by
  refine ⟨by simp [render_graph], ?_, by simp [render_graph], ?_⟩
  · intro row hrow
    rcases List.mem_map.mp hrow with ⟨r, _, hr⟩
    rw [← hr, List.length_map, graphColumns_length]
  · intro row hrow
    rcases List.mem_map.mp hrow with ⟨r, _, hr⟩
    rw [← hr]
    apply List.eq_nil_of_length_eq_zero
    rw [List.length_map, graphColumns_length]

/-- Witness for C8: a 3-sample history rendered at width 2 and height 3
with scale 1 gives 3 rows of 2 cells. -/
theorem render_graph_shape_witness :
    (render_graph [1, 2, 3] 2 3 1).length = 3 ∧
    (∀ row ∈ render_graph [1, 2, 3] 2 3 1, row.length = 2) := by
  have h := render_graph_shape [1, 2, 3] 2 3 1 (by norm_num)
  exact ⟨h.1, h.2.1⟩

/-- Helper: when the history is at least as long as the grid, the columns
are exactly the most recent `width` samples. -/
theorem graphColumns_of_le (history : List ℚ) (width : Nat)
    (hw : width ≤ history.length) :
    graphColumns history width =
      (history.drop (history.length - width)).map some := by
  apply List.ext_getElem
  · simp [graphColumns_length]
    omega
  · intro i h1 h2
    rw [graphColumns_length] at h1
    simp only [graphColumns, List.getElem_map, List.getElem_range]
    have hidx : 0 ≤ (history.length : Int) - width + i ∧
        ((history.length : Int) - width + i).toNat < history.length := by
      omega
    rw [dif_pos hidx]
    have hdl : i < (history.drop (history.length - width)).length := by
      simp
      omega
    rw [List.getElem_drop]
    have heq : ((history.length : Int) - width + i).toNat =
        history.length - width + i := by omega
    simp only [heq]
    rfl

/-- C9: the renderer's column mapping.  When `width ≤ len(history)` the
columns are exactly the most recent `width` samples (older samples dropped,
newest flush right), so the rendered grid equals the grid of the truncated
history; when `len(history) < width` the columns are `width − len` blank
(no-data) columns followed by all samples, so the newest sample occupies the
rightmost column. -/
theorem render_columns_spec (history : List ℚ) (width : Nat) :
    (width ≤ history.length →
      graphColumns history width =
        (history.drop (history.length - width)).map some) ∧
    (history.length < width →
      graphColumns history width =
        List.replicate (width - history.length) none ++ history.map some) ∧
    (∀ (height : Nat) (scaleMax : ℚ), width ≤ history.length →
      render_graph history width height scaleMax =
        render_graph (history.drop (history.length - width))
          width height scaleMax) := by
  refine ⟨graphColumns_of_le history width, ?_, ?_⟩
  · intro hw
    apply List.ext_getElem
    · simp [graphColumns_length]
      omega
    · intro i h1 h2
      rw [graphColumns_length] at h1
      simp only [graphColumns, List.getElem_map, List.getElem_range]
      by_cases hi : i < width - history.length
      · rw [dif_neg (by omega)]
        rw [List.getElem_append_left (by simp; omega)]
        simp
      · have hidx : 0 ≤ (history.length : Int) - width + i ∧
            ((history.length : Int) - width + i).toNat < history.length := by
          omega
        rw [dif_pos hidx]
        rw [List.getElem_append_right (by simp; omega)]
        have heq : ((history.length : Int) - width + i).toNat =
            i - (List.replicate (width - history.length)
              (none : Option ℚ)).length := by
          simp
          omega
        simp only [List.getElem_map, heq]
        rfl
  · intro height scaleMax hw
    unfold render_graph
    rw [graphColumns_of_le history width hw,
        graphColumns_of_le (history.drop (history.length - width)) width
          (by simp; omega)]
    have hz : (history.drop (history.length - width)).length -
        width = 0 := by simp; omega
    rw [hz, List.drop_zero]

/-- Witness for C9: five samples at width 3 keep exactly the newest three,
right-aligned; two samples at width 4 are left-padded with two blank
columns. -/
theorem render_columns_spec_witness :
    graphColumns [1, 2, 3, 4, 5] 3 = [some 3, some 4, some 5] ∧
    graphColumns [1, 2] 4 = [none, none, some 1, some 2] := by
  constructor
  · rw [(render_columns_spec [1, 2, 3, 4, 5] 3).1 (by norm_num)]
    rfl
  · rw [(render_columns_spec [1, 2] 4).2.1 (by norm_num)]
    rfl

end Theorems

end Winload
